import Mathlib

/-
  Verification development for the document question-answering backend.

  The Python sources are shallowly embedded: pure functions become Lean
  functions; external collaborators (OpenAI embedding/completion providers,
  the Qdrant vector index, the Redis key-value store, the relational store)
  are modelled as explicit parameters or explicit state, mirroring the spec's
  treatment of them as black boxes with fixed contracts.  Machine floats that
  only ever flow through comparisons are modelled as rationals.
-/

/- ===================== Python string primitives ======================== -/

/-
  Models of the Python string operations the pipeline uses, implemented by
  structural recursion on character lists so that every definition evaluates
  inside the kernel.  Python strings are sequences of code points, exactly
  the data field of a Lean String, so length, slicing and comparison agree.
-/

/-- Model of Python str.strip() with no argument on a character list:
whitespace removed from both ends. -/
def pyStripList (cs : List Char) : List Char :=
  ((cs.dropWhile Char.isWhitespace).reverse.dropWhile Char.isWhitespace).reverse

/-- Model of Python str.strip() with no argument. -/
def pyStrip (s : String) : String :=
  ⟨pyStripList s.data⟩

/-- Model of Python str.lower() on the ASCII range the pipeline handles. -/
def pyLower (s : String) : String :=
  ⟨s.data.map Char.toLower⟩

/-- Whether the second list begins with the first. -/
def listStartsWith : List Char → List Char → Bool
  | [], _ => true
  | _ :: _, [] => false
  | p :: ps, c :: cs => p = c && listStartsWith ps cs

/-- Model of Python str.startswith. -/
def pyStartsWith (pre s : String) : Bool :=
  listStartsWith pre.data s.data

/-- Worker for pySplitOn: scans left to right, splitting at every
non-overlapping occurrence of the (nonempty) separator.  The fuel starts at
the input length and dominates the number of steps, keeping the recursion
structural. -/
def pySplitOnAux (sep : List Char) : ℕ → List Char → List Char → List (List Char)
  | 0, acc, cs => [acc.reverse ++ cs]
  | _ + 1, acc, [] => [acc.reverse]
  | fuel + 1, acc, c :: rest =>
      if listStartsWith sep (c :: rest) then
        acc.reverse :: pySplitOnAux sep fuel [] ((c :: rest).drop sep.length)
      else
        pySplitOnAux sep fuel (c :: acc) rest

/-- Model of Python str.split(sep) for a nonempty separator. -/
def pySplitOn (sep s : String) : List String :=
  (pySplitOnAux sep.data s.data.length [] s.data).map fun cs => ⟨cs⟩

/-- Model of Python str.replace(pattern, "") for a nonempty pattern: every
occurrence deleted, which is splitting on the pattern and joining the
pieces. -/
def pyRemoveAll (pattern s : String) : String :=
  ⟨(pySplitOnAux pattern.data s.data.length [] s.data).flatten⟩

/- ===================== Embedding Gateway (app/utils/embeddings.py) ===== -/

/-- An embedding vector: the provider returns a fixed-length list of floats,
modelled as rationals. -/
def Vec : Type := List ℚ

instance : DecidableEq Vec := by
  unfold Vec
  infer_instance

instance : Inhabited Vec := ⟨([] : List ℚ)⟩

/-- Embeds app/utils/embeddings.py, generate_embeddings.  The OpenAI call is
the parameter "provider"; "none" models the call raising an exception.  On
success the code returns the provider's embeddings in order; on failure it
catches the exception, logs, and returns one all-zero 1536-vector per input
text (the literal "[[0.0] * 1536 for _ in texts]"). -/
def generate_embeddings (provider : List String → Option (List Vec))
    (texts : List String) : List Vec :=
  match provider texts with
  | some res => res
  | none => List.replicate texts.length (List.replicate 1536 (0 : ℚ))

/-- Embeds app/utils/embeddings.py, generate_single_embedding: the literal
"return generate_embeddings([text])[0]".  Python indexing [0] is total here
because generate_embeddings never returns an empty list for a one-element
input (failure yields one zero vector); headI is its value. -/
def generate_single_embedding (provider : List String → Option (List Vec))
    (text : String) : Vec :=
  (generate_embeddings provider [text]).headI

/- ===================== Cache normalization (app/utils/answer_generation.py) -/

/-- Helper for the regex re.sub applied in normalize_question: collapses every
maximal run of whitespace into a single space.  The Boolean records whether
the previous character was part of a whitespace run. -/
def collapseWsAux : List Char → Bool → List Char
  | [], _ => []
  | ch :: rest, prev =>
      if ch.isWhitespace then
        if prev then collapseWsAux rest true
        else ' ' :: collapseWsAux rest true
      else ch :: collapseWsAux rest false

/-- Model of re.sub applied to a string: each maximal whitespace run becomes
one space. -/
def collapseWs (s : String) : String :=
  ⟨collapseWsAux s.data false⟩

/-- Model of Python str.replace(c, "") for a one-character pattern: removes
every occurrence of the character. -/
def removeChar (c : Char) (s : String) : String :=
  ⟨s.data.filter (fun ch => ch ≠ c)⟩

/-- The apostrophe character, written by code point to keep source plain. -/
def apostropheChar : Char := Char.ofNat 39

/-- Embeds app/utils/answer_generation.py, normalize_question: lowercase and
strip, collapse whitespace, then delete the characters in the fixed set
question mark, period, comma, double quote, single quote.  (The word-sorting
step in the source is commented out and therefore not modelled.) -/
def normalize_question (question : String) : String :=
  let normalized := pyStrip (pyLower question)
  let normalized := collapseWs normalized
  let normalized := removeChar '?' normalized
  let normalized := removeChar '.' normalized
  let normalized := removeChar ',' normalized
  let normalized := removeChar '"' normalized
  let normalized := removeChar apostropheChar normalized
  normalized

/-- The Redis key used by get_cached_answer and cache_answer: the literal
"answer:" followed by the md5 hex digest of the normalized question.  The
md5 hex digest is the uninterpreted parameter md5hex. -/
def answer_cache_key (md5hex : String → String) (question : String) : String :=
  "answer:" ++ md5hex (normalize_question question)

/- ===================== Answer cache store model ======================== -/

/-- A Citation as built in app/utils/answer_generation.py (pydantic model
Citation). -/
structure Citation where
  text : String
  page_start : ℕ
  page_end : ℕ
  chunk_id : ℕ
  exact_text : String
  search_pages : List ℕ
deriving DecidableEq, Repr

/-- The record cache_answer serializes to JSON and stores under the answer
cache key (fields answer, citations, document_id; the cached_at field is the
constant null and carries no information). -/
structure CachedAnswerEntry where
  answer : String
  citations : List Citation
  document_id : ℕ
deriving DecidableEq, Repr

/-- The Redis string keyspace as seen by the answer cache: a partial map from
keys to stored entries.  JSON serialization round-trips structurally, so the
entry is stored directly; the setex time-to-live only bounds staleness and is
not part of any claim, so it is not modelled. -/
def Store : Type := String → Option CachedAnswerEntry

/-- Embeds app/utils/answer_generation.py, get_cached_answer: reads the store
at the key derived from the normalized question only. -/
def get_cached_answer (md5hex : String → String) (store : Store)
    (question : String) : Option CachedAnswerEntry :=
  store (answer_cache_key md5hex question)

/-- Embeds app/utils/answer_generation.py, cache_answer: writes the entry
(answer, citations, document_id) under the key derived from the normalized
question only. -/
def cache_answer (md5hex : String → String) (store : Store)
    (question : String) (answer : String) (citations : List Citation)
    (document_id : ℕ) : Store :=
  fun k =>
    if k = answer_cache_key md5hex question then
      some ⟨answer, citations, document_id⟩
    else store k

/-- Request body of POST /ask (app/routes/ask.py, AskRequest). -/
structure AskRequest where
  question : String
  document_id : ℕ
deriving DecidableEq, Repr

/-- Response body of POST /ask (app/routes/ask.py, AskResponse). -/
structure AskResponse where
  question : String
  answer : String
  citations : List Citation
  total_chunks_found : ℕ
  status : String
deriving DecidableEq, Repr

/-- Embeds the cache-hit path of app/routes/ask.py, ask_question (lines that
call get_cached_answer and build an AskResponse from the cached record).
Returns none on a cache miss, where the endpoint proceeds to retrieval and
synthesis; the claims about this path concern only the hit case. -/
def ask_question_cache_path (md5hex : String → String) (store : Store)
    (request : AskRequest) : Option AskResponse :=
  match get_cached_answer md5hex store request.question with
  | some cached =>
      some { question := request.question
             answer := cached.answer
             citations := cached.citations
             total_chunks_found := cached.citations.length
             status := "success" }
  | none => none

/- ===================== Rate gate (app/utils/rate_limiting.py) ========== -/

/-- State of one rate-limit key in Redis: the stored counter value together
with its absolute expiry time (SETEX key ttl v stores v and arranges expiry
at now + ttl; DECR leaves the expiry unchanged). -/
def RateKeyState : Type := Option (ℕ × ℕ)

/-- Embeds the Lua script evaluated atomically by check_rate_limit.  GET
returns false when the key is absent or expired (now has reached the expiry);
then SETEX seeds the counter to limit - 1 and the request is allowed.
Otherwise a positive counter is decremented and the request allowed, and a
zero counter denies the request.  Result: ((remaining, allowed), new state).
The whole function is one step on the store, mirroring the atomicity of a
single Redis EVAL. -/
def rate_limit_script (limit ttl now : ℕ) (st : RateKeyState) :
    (ℕ × Bool) × RateKeyState :=
  let live : RateKeyState :=
    match st with
    | some (c, e) => if now < e then some (c, e) else none
    | none => none
  match live with
  | none => ((limit - 1, true), some (limit - 1, now + ttl))
  | some (c, e) =>
      if 0 < c then ((c - 1, true), some (c - 1, e))
      else ((0, false), some (c, e))

/-- Embeds app/utils/rate_limiting.py, check_rate_limit: evaluates the Lua
script when Redis is reachable; on a Redis failure the except branch fails
open, allowing the request with remaining limit - 1 and leaving the store
untouched. -/
def check_rate_limit (redisOk : Bool) (limit ttl now : ℕ)
    (st : RateKeyState) : (ℕ × Bool) × RateKeyState :=
  if redisOk then rate_limit_script limit ttl now st
  else ((limit - 1, true), st)

/-- A sequence of check_rate_limit calls from one client at the given times,
threading the Redis key state; returns the allowed flag of each call in
order together with the final key state. -/
def rateRun (limit ttl : ℕ) : List ℕ → RateKeyState → List Bool × RateKeyState
  | [], st => ([], st)
  | t :: ts, st =>
      let step := rate_limit_script limit ttl t st
      let rest := rateRun limit ttl ts step.2
      (step.1.2 :: rest.1, rest.2)

/- ===================== Vector Retriever result shape =================== -/

/-- One retrieval candidate, the dictionary built per hit by
app/utils/vector_search.py, search_similar_chunks: chunk id, similarity
score (a float, modelled as a rational), chunk text, inclusive page range,
token count.  search_similar_chunks itself performs network and database
calls, so retrieval is passed into the pure pipeline as an oracle of type
SearchFn below. -/
structure RChunk where
  chunk_id : ℕ
  similarity_score : ℚ
  text : String
  page_start : ℕ
  page_end : ℕ
  token_count : ℕ
deriving DecidableEq, Repr

/-- The retrieval oracle: arguments are the query vector, top_k, and the
document id filter, exactly the call shape search_similar_chunks exposes to
enhanced_search. -/
def SearchFn : Type := Vec → ℕ → ℕ → List RChunk

/- ===================== Query Planner and Aggregator ==================== -/

/-- Result of app/utils/enhanced_search.py, split_question_structured: the
function returns a Python dict that either carries the key error (the
failure marker: provider exception, or no function call in the response) or
the parsed function-call arguments (complexity, sub_questions, reasoning).
The error field models the presence of the error key. -/
structure ParsedQuestion where
  error : Option String
  complexity : Option String
  sub_questions : List String
  reasoning : Option String
deriving DecidableEq, Repr

/-- The planner oracle standing for split_question_structured, whose body is
one OpenAI chat-completion call plus JSON decoding. -/
def PlannerFn : Type := String → ParsedQuestion

/-- Recursion worker for deduplicate_chunks: seen is the set of chunk ids
already emitted (the Python set seen_ids). -/
def dedupAux (seen : List ℕ) : List RChunk → List RChunk
  | [] => []
  | c :: cs =>
      if c.chunk_id ∈ seen then dedupAux seen cs
      else c :: dedupAux (c.chunk_id :: seen) cs

/-- Embeds app/utils/enhanced_search.py, deduplicate_chunks: removes
duplicate chunks by chunk_id while preserving order (first occurrence kept). -/
def deduplicate_chunks (chunks : List RChunk) : List RChunk :=
  dedupAux [] chunks

/-- Insertion step of a stable descending sort on similarity_score: the new
element passes over strictly greater scores and stops at the first score
less than or equal to its own, so earlier input elements with equal score
stay in front. -/
def insertByScoreDesc (c : RChunk) : List RChunk → List RChunk
  | [] => [c]
  | d :: ds =>
      if c.similarity_score < d.similarity_score then d :: insertByScoreDesc c ds
      else c :: d :: ds

/-- Model of the Python statement
unique_chunks.sort(key score, reverse=True): a stable sort placing higher
similarity scores first.  Python list.sort is stable, and any two stable
sorts under the same key order coincide, so insertion sort is an exact
model. -/
def sortByScoreDesc : List RChunk → List RChunk
  | [] => []
  | c :: cs => insertByScoreDesc c (sortByScoreDesc cs)

/-- Embeds app/utils/enhanced_search.py, enhanced_search.  The OpenAI planner,
the embedding provider, and the vector retriever are oracles; everything else
follows the source line by line: on a planner failure marker, fall back to a
single plain search over the original question with top_k 8; otherwise cap
the sub-questions at 6, retrieve top 3 candidates per sub-question,
concatenate, deduplicate by chunk id, sort by similarity descending, fall
back to the plain search when fewer than 3 unique candidates remain, and
otherwise return the first 8.  (The per-sub-question try/except and the outer
try/except guard effectful failures of the oracles, which are pure here.) -/
def enhanced_search (planner : PlannerFn)
    (provider : List String → Option (List Vec)) (search : SearchFn)
    (question : String) (document_id : ℕ) : List RChunk :=
  let parsed := planner question
  if parsed.error.isSome then
    search (generate_embeddings provider [question]).headI 8 document_id
  else
    let sub_questions := parsed.sub_questions.take 6
    let all_chunks := sub_questions.flatMap (fun sub_q =>
      search (generate_embeddings provider [sub_q]).headI 3 document_id)
    let unique_chunks := sortByScoreDesc (deduplicate_chunks all_chunks)
    if unique_chunks.length < 3 then
      search (generate_embeddings provider [question]).headI 8 document_id
    else
      unique_chunks.take 8

/-- Specification-style first-occurrence filter, used to state that
deduplicate_chunks keeps exactly the first chunk carrying each chunk_id, in
input order: keep the head and recurse on the tail purged of the head's id. -/
def keepFirstByChunkId : List RChunk → List RChunk
  | [] => []
  | c :: cs =>
      c :: keepFirstByChunkId (cs.filter (fun d => d.chunk_id ≠ c.chunk_id))
termination_by l => l.length
decreasing_by
  simp only [List.length_cons]
  exact Nat.lt_succ_of_le (List.length_filter_le _ cs)

/- ===================== Answer Synthesizer (answer_generation.py) ======= -/

/-- Model of Python substring membership (the operator in) for a nonempty
needle: str.split(sep) returns more than one part exactly when sep occurs in
the string. -/
def containsSub (needle s : String) : Bool :=
  (pySplitOn needle s).length != 1

/-- Model of Python str.strip(c) for a one-character argument: removes every
leading and trailing occurrence of that character. -/
def stripChar (c : Char) (s : String) : String :=
  ⟨((s.data.dropWhile (fun ch => ch = c)).reverse.dropWhile
      (fun ch => ch = c)).reverse⟩

/-- One line of the CITATIONS section as processed by parse_llm_response:
strip whitespace; drop the line if it is empty or starts with the comment
character; strip double quotes, then single quotes, then whitespace again;
drop the quote if it came out empty. -/
def parseQuoteLine (line : String) : Option String :=
  let line := pyStrip line
  if line ≠ "" ∧ ¬ pyStartsWith "#" line then
    let quote := pyStrip (stripChar apostropheChar (stripChar '"' line))
    if quote ≠ "" then some quote else none
  else
    none

/-- Embeds app/utils/answer_generation.py, parse_llm_response: when both
section markers occur, split on the CITATIONS marker, take the text before
the first occurrence minus every ANSWER marker as the answer, take the text
after the first occurrence (parts[1]) as the citations section, and collect
its surviving lines as exact quotes; otherwise the whole response is the
answer and there are no quotes.  (The try/except in the source can only fire
on defects of the interpreter; the body is total.) -/
def parse_llm_response (response_text : String) : String × List String :=
  if containsSub "ANSWER:" response_text ∧ containsSub "CITATIONS:" response_text then
    let parts := pySplitOn "CITATIONS:" response_text
    let answer_part := pyStrip (pyRemoveAll "ANSWER:" parts.headI)
    let citations_part := if parts.length > 1 then pyStrip (parts.getD 1 "") else ""
    let exact_quotes := (pySplitOn "\n" citations_part).filterMap parseQuoteLine
    (answer_part, exact_quotes)
  else
    (response_text, [])

/-- The citation generate_answer_with_citations builds for one candidate
chunk before the provider responds: preview text truncated at 200 characters
with an ellipsis, the chunk's page range and id, an empty exact quote, and
the search pages (page_start, plus page_end only when different). -/
def mkBaseCitation (chunk : RChunk) : Citation :=
  { text := if chunk.text.data.length > 200 then String.mk (chunk.text.data.take 200) ++ "..."
            else chunk.text
    page_start := chunk.page_start
    page_end := chunk.page_end
    chunk_id := chunk.chunk_id
    exact_text := ""
    search_pages := [chunk.page_start] ++
      (if chunk.page_end ≠ chunk.page_start then [chunk.page_end] else []) }

/-- The quote-assignment loop of generate_answer_with_citations: the i-th
parsed quote overwrites the exact_text of the i-th citation; quotes beyond
the citation count are ignored (the guard i less than len(citations)), and
citations beyond the quote count are left unchanged. -/
def setExactTexts : List Citation → List String → List Citation
  | [], _ => []
  | cits, [] => cits
  | c :: cs, q :: qs => { c with exact_text := q } :: setExactTexts cs qs

/-- Embeds app/utils/answer_generation.py, generate_answer_with_citations.
The chat-completion call is the parameter llm: Except.ok is the stripped
response text, Except.error the message of a raised exception.  On success
the response is parsed, quotes are bound positionally to the prebuilt
citations, and the answer is cached; on failure the error-describing answer
is returned with the quote-less citations and the store is untouched.
Result: ((answer, citations), store after the call). -/
def generate_answer_with_citations (md5hex : String → String) (store : Store)
    (llm : Except String String) (question : String) (chunks : List RChunk)
    (document_id : ℕ) : (String × List Citation) × Store :=
  let citations := chunks.map mkBaseCitation
  match llm with
  | Except.ok response_text =>
      let parsed := parse_llm_response (pyStrip response_text)
      let citations := setExactTexts citations parsed.2
      let store := cache_answer md5hex store question parsed.1 citations document_id
      ((parsed.1, citations), store)
  | Except.error msg =>
      (("Error generating answer: " ++ msg, citations), store)

/- ===================== Chunker (app/utils/chunking.py) ================= -/

/-- The tiktoken cl100k_base codec used by the chunker, treated as an
external collaborator: an uninterpreted pair of encode and decode maps. -/
structure Encoding where
  encode : String → List ℕ
  decode : List ℕ → String

/-- Model of the Python slice tokens[-k:]: the trailing k elements, except
that the slice [-0:] is the whole list. -/
def lastSlice (k : ℕ) (l : List ℕ) : List ℕ :=
  if k = 0 then l else l.drop (l.length - k)

/-- Embeds app/utils/chunking.py, get_overlap_text: the last overlap_tokens
tokens of the text, decoded; the whole text when it has at most that many
tokens. -/
def get_overlap_text (text : String) (overlap_tokens : ℕ) (enc : Encoding) :
    String :=
  let tokens := enc.encode text
  if tokens.length ≤ overlap_tokens then text
  else enc.decode (lastSlice overlap_tokens tokens)

/-- True when the character list begins with a page marker: an opening
bracket, the letters PAGE, a colon, at least one digit, and a closing
bracket.  This is the lookahead alternative of the sentence-splitting regex. -/
def pageMarkerAt : List Char → Bool
  | '[' :: 'P' :: 'A' :: 'G' :: 'E' :: ':' :: rest =>
      !(rest.takeWhile Char.isDigit).isEmpty &&
        (match rest.dropWhile Char.isDigit with
         | ']' :: _ => true
         | _ => false)
  | _ => false

/-- True when the first regex alternative matches here: the previous
character is terminal punctuation and the current character is whitespace. -/
def isSentenceBoundary (prev : Option Char) (c : Char) : Bool :=
  (match prev with
   | some p => p = '.' || p = '!' || p = '?'
   | none => false) && c.isWhitespace

/-- Scanner modelling re.split on the two alternatives: at each position try
the whitespace-after-punctuation alternative first (a non-empty match that
consumes the maximal whitespace run and splits), then the zero-width
page-marker lookahead (splits without consuming; the marker character starts
the next segment and scanning resumes one position later, as re.finditer
does after an empty match).  The Boolean is true while the maximal
whitespace run of a sentence-boundary match is still being consumed; on the
first character past the run, only the lookahead alternative can match,
since the previous character is then whitespace. -/
def splitAux : Option Char → List Char → Bool → List Char → List (List Char)
  | _, acc, _, [] => [acc.reverse]
  | prev, acc, inWs, c :: rest =>
      if inWs then
        if c.isWhitespace then splitAux (some c) acc true rest
        else if pageMarkerAt (c :: rest) then
          acc.reverse :: splitAux (some c) [c] false rest
        else splitAux (some c) (c :: acc) false rest
      else
        if isSentenceBoundary prev c then
          acc.reverse :: splitAux (some c) [] true rest
        else if pageMarkerAt (c :: rest) then
          acc.reverse :: splitAux (some c) [c] false rest
        else
          splitAux (some c) (c :: acc) false rest

/-- Model of the statement
sentences = re.split of the source: split the text at sentence boundaries
and before page markers. -/
def splitSentences (text : String) : List String :=
  (splitAux none [] false text.data).map fun cs => ⟨cs⟩

/-- Numeric value of the digit group of a page marker. -/
def digitsToNat (ds : List Char) : ℕ :=
  ds.foldl (fun a c => 10 * a + (c.toNat - 48)) 0

/-- Embeds the page-marker test of the chunking loop: re.match of the marker
pattern against the stripped sentence, returning the page number when the
stripped sentence begins with a complete marker. -/
def pageMarkerOf (sentence : String) : Option ℕ :=
  match pyStripList sentence.data with
  | '[' :: 'P' :: 'A' :: 'G' :: 'E' :: ':' :: rest =>
      let ds := rest.takeWhile Char.isDigit
      if ds.isEmpty then none
      else
        match rest.dropWhile Char.isDigit with
        | ']' :: _ => some (digitsToNat ds)
        | _ => none
  | _ => none

/-- The page numbers of the inline page markers of a sentence sequence, in
order of appearance.  Every marker of the raw text heads its own segment
after splitSentences, so this is the marker sequence of the input. -/
def markersOf (sentences : List String) : List ℕ :=
  sentences.filterMap pageMarkerOf

/-- One emitted chunk of smart_chunk_document (the chunk_data dictionary). -/
structure ChunkData where
  id : ℕ
  text : String
  token_count : ℕ
  page_start : ℕ
  page_end : ℕ
deriving DecidableEq, Repr

/-- The loop state of smart_chunk_document: emitted chunks, current chunk
buffer and its token count, next chunk ordinal, current page, and the set of
pages seen in the current chunk (a Python set, kept as a duplicate-free
list). -/
structure ChunkState where
  chunks : List ChunkData
  current_chunk : String
  current_tokens : ℕ
  chunk_id : ℕ
  current_page : ℕ
  pages_in_chunk : List ℕ
deriving Repr

/-- The state at loop entry: no chunks, empty buffer, ordinal 0, page 1,
empty page set. -/
def initChunkState : ChunkState :=
  { chunks := [], current_chunk := "", current_tokens := 0, chunk_id := 0
    current_page := 1, pages_in_chunk := [] }

/-- Python min over the page set, with the current page as the value of the
empty-set branch of the source's conditional expression. -/
def pageSetMin (pages : List ℕ) (current_page : ℕ) : ℕ :=
  match pages with
  | [] => current_page
  | p :: ps => ps.foldl min p

/-- Python max over the page set, with the current page as the value of the
empty-set branch of the source's conditional expression. -/
def pageSetMax (pages : List ℕ) (current_page : ℕ) : ℕ :=
  match pages with
  | [] => current_page
  | p :: ps => ps.foldl max p

/-- Adding the current page to the page set (set add: no duplicates). -/
def insertPage (pages : List ℕ) (p : ℕ) : List ℕ :=
  if p ∈ pages then pages else pages ++ [p]

/-- The chunk_data record built when the current chunk is closed: stripped
buffer text, accumulated token count, and the minimum and maximum of the
pages seen. -/
def closeChunk (st : ChunkState) : ChunkData :=
  { id := st.chunk_id
    text := pyStrip st.current_chunk
    token_count := st.current_tokens
    page_start := pageSetMin st.pages_in_chunk st.current_page
    page_end := pageSetMax st.pages_in_chunk st.current_page }

/-- One iteration of the sentence loop of smart_chunk_document.  A page
marker only updates the current page (and, through the source's continue,
discards the rest of its segment).  An empty sentence is skipped.  Otherwise,
when adding the sentence would exceed the chunk size and the buffer has
content, the buffer is closed and the new buffer is seeded with the overlap
suffix of the old one followed by a space and the sentence (just the
sentence when the overlap text is empty), the token count is recomputed on
the seeded buffer, and the page set restarts at the current page; otherwise
the sentence is appended to the buffer after a space (or starts it) and the
current page joins the page set. -/
def chunkStep (enc : Encoding) (chunk_size overlap : ℕ) (st : ChunkState)
    (sentence : String) : ChunkState :=
  match pageMarkerOf sentence with
  | some p => { st with current_page := p }
  | none =>
    if pyStrip sentence = "" then st
    else
      let sentence_tokens := (enc.encode sentence).length
      if chunk_size < st.current_tokens + sentence_tokens ∧
          pyStrip st.current_chunk ≠ "" then
        let overlap_text := get_overlap_text st.current_chunk overlap enc
        let new_chunk :=
          if overlap_text ≠ "" then overlap_text ++ " " ++ sentence
          else sentence
        { chunks := st.chunks ++ [closeChunk st]
          current_chunk := new_chunk
          current_tokens := (enc.encode new_chunk).length
          chunk_id := st.chunk_id + 1
          current_page := st.current_page
          pages_in_chunk := [st.current_page] }
      else
        { st with
          current_chunk :=
            if st.current_chunk ≠ "" then st.current_chunk ++ " " ++ sentence
            else sentence
          current_tokens :=
            if st.current_chunk ≠ "" then st.current_tokens + sentence_tokens
            else sentence_tokens
          pages_in_chunk := insertPage st.pages_in_chunk st.current_page }

/-- Embeds app/utils/chunking.py, smart_chunk_document: empty input yields no
chunks; otherwise the split sentences are folded through the loop and a final
non-empty buffer is closed and appended. -/
def smart_chunk_document (enc : Encoding) (text : String)
    (chunk_size : ℕ := 900) (overlap : ℕ := 150) : List ChunkData :=
  if pyStrip text = "" then []
  else
    let sentences := splitSentences text
    let final := sentences.foldl (chunkStep enc chunk_size overlap) initChunkState
    if pyStrip final.current_chunk ≠ "" then final.chunks ++ [closeChunk final]
    else final.chunks

/- ===================== Ingestion task (app/tasks.py) =================== -/

/-- The effectful environment of one process_document run: whether the
Document row exists, the chunker output for the uploaded text, and whether
the Qdrant upsert and the remaining statements of the try body succeed.  The
Celery task touches four external systems; the model records the outcome
each can produce. -/
structure IngestEnv where
  docFound : Bool
  chunks : List ChunkData
  qdrantOk : Bool
  stepsOk : Bool

/-- Observable outcome of a process_document run: the last status written to
the Document row (none when the early missing-document return fires and the
row is untouched), the last job record written to Redis (status label and
progress), and how many chunk rows and vector points the run left behind. -/
structure IngestOutcome where
  finalStatus : Option String
  jobRecord : Option (String × ℕ)
  chunksPersisted : ℕ
  vectorsStored : ℕ
deriving DecidableEq, Repr

/-- Embeds app/tasks.py, process_document.  A missing document returns early.
An exception outside the Qdrant block reaches the outer except, which marks
the document failed with a failed job record (the exception point inside the
body is not tracked; the claims only distinguish whether the run reached the
vector-write step).  Otherwise chunks are persisted, embeddings generated
(generate_embeddings never raises: it degrades to zero vectors), and the
Qdrant upsert runs inside its own try/except: on failure the error is logged
and no points are stored, and execution falls through to the next statement
either way, which sets the document status to ready and writes the ready job
record at progress 100. -/
def process_document (env : IngestEnv) : IngestOutcome :=
  if ¬ env.docFound then
    { finalStatus := none, jobRecord := none
      chunksPersisted := 0, vectorsStored := 0 }
  else if ¬ env.stepsOk then
    { finalStatus := some "failed", jobRecord := some ("failed", 0)
      chunksPersisted := 0, vectorsStored := 0 }
  else
    { finalStatus := some "ready"
      jobRecord := some ("ready", 100)
      chunksPersisted := env.chunks.length
      vectorsStored := if env.qdrantOk then env.chunks.length else 0 }

/- ===================== Concrete instances for evaluation =============== -/

/-- A tokenizer instance used to evaluate the chunker on concrete inputs:
one token per character, decoding by code point.  It is injective and
round-trips, as a real codec does. -/
def encCharEx : Encoding :=
  { encode := fun s => s.data.map Char.toNat
    decode := fun l => ⟨l.map Char.ofNat⟩ }

/-- A planner instance whose provider call failed: the returned dict carries
the error key, as split_question_structured builds it in its except branch. -/
def plannerFailEx : PlannerFn :=
  fun _ => { error := some "OpenAI API error: boom"
             complexity := none, sub_questions := [], reasoning := none }

/-- A planner instance that succeeded with two sub-questions. -/
def plannerOkEx : PlannerFn :=
  fun _ => { error := none, complexity := some "medium"
             sub_questions := ["Who nominates ambassadors?",
                               "Who confirms ambassadors?"]
             reasoning := some "two aspects" }

/-- An embedding provider that always fails (models a provider outage). -/
def providerDownEx : List String → Option (List Vec) := fun _ => none

/-- An embedding provider that succeeds and honours the one-vector-per-input
contract. -/
def providerOkEx : List String → Option (List Vec) :=
  fun ts => some (ts.map fun _ => ([1] : List ℚ))

/-- A retriever instance returning top_k distinct candidates with descending
scores. -/
def searchEx : SearchFn :=
  fun _ top_k _ =>
    (List.range top_k).map fun i =>
      { chunk_id := i, similarity_score := mkRat (10 - (i : ℤ)) 10
        text := "clause", page_start := 1, page_end := 1, token_count := 4 }

/-- A retriever instance that finds nothing. -/
def searchEmptyEx : SearchFn := fun _ _ _ => []

/-- The identity stands in for the md5 hex digest in concrete evaluations. -/
def md5Ex : String → String := fun s => s

/-- An empty Redis keyspace. -/
def storeEmptyEx : Store := fun _ => none

/-- The three ranked candidates of the citation positional-binding scenario. -/
def chunksEx : List RChunk :=
  [ { chunk_id := 11, similarity_score := mkRat 9 10, text := "first clause"
      page_start := 2, page_end := 2, token_count := 3 }
  , { chunk_id := 12, similarity_score := mkRat 8 10, text := "second clause"
      page_start := 2, page_end := 3, token_count := 3 }
  , { chunk_id := 13, similarity_score := mkRat 7 10, text := "third clause"
      page_start := 4, page_end := 4, token_count := 3 } ]

/-- A provider response in the required two-section format with exactly two
quote lines. -/
def respEx : String :=
  "ANSWER: The President appoints ambassadors with Senate approval.\n\n" ++
    "CITATIONS: \n\"The President shall appoint Ambassadors\"\n" ++
    "\"by and with the Advice and Consent of the Senate\"\n"

/-- A chunker loop state about to be closed, used to evaluate the overlap
seeding step. -/
def chunkStateEx : ChunkState :=
  { chunks := [], current_chunk := "Hello there my friend."
    current_tokens := 22, chunk_id := 0, current_page := 1
    pages_in_chunk := [1] }

/-- Input whose only inline page marker is for page 0 while text precedes it
on the implicit initial page 1: the marker sequence is trivially
non-decreasing, yet the emitted page starts will decrease.  The first
sentence is long enough to exceed the default chunk size under encCharEx. -/
def pageZeroTextEx : String :=
  String.mk (List.replicate 950 'a' ++ ['.']) ++ " [PAGE:0] b. c."

/-- The page start of the chunk most recently emitted by the loop, 0 when no
chunk has been emitted yet; used to state the page-monotonicity invariant. -/
def lastStart (st : ChunkState) : ℕ :=
  ((st.chunks.map ChunkData.page_start).getLast?).getD 0

/-- Loop invariant for page monotonicity: emitted page starts form a
non-decreasing chain, the last emitted page start is at most the current
page, and every page in the open chunk's page set lies between the last
emitted page start and the current page. -/
def ChunkMonoInv (st : ChunkState) : Prop :=
  List.Chain' (· ≤ ·) (st.chunks.map ChunkData.page_start) ∧
  lastStart st ≤ st.current_page ∧
  ∀ p ∈ st.pages_in_chunk, lastStart st ≤ p ∧ p ≤ st.current_page

/- ====================================================================== -/
/- ===================== Lemmas and claim theorems ====================== -/
/- ====================================================================== -/

/-- C7: normalize_question lowercases, collapses whitespace, and strips the
fixed punctuation set, so the three question variants (trailing question
mark, all lowercase, no trailing punctuation) normalize to the same string,
and therefore the cache key derived from any digest function is the same for
all three. -/
theorem normalize_question_variants_agree :
    normalize_question "What is the 22nd Amendment?" =
      normalize_question "what is the 22nd amendment" ∧
    normalize_question "What is the 22nd Amendment" =
      normalize_question "what is the 22nd amendment" ∧
    ∀ md5hex : String → String,
      answer_cache_key md5hex "What is the 22nd Amendment?" =
          answer_cache_key md5hex "what is the 22nd amendment" ∧
        answer_cache_key md5hex "What is the 22nd Amendment" =
          answer_cache_key md5hex "what is the 22nd amendment" := by
  have h1 : normalize_question "What is the 22nd Amendment?" =
      normalize_question "what is the 22nd amendment" := by decide
  have h2 : normalize_question "What is the 22nd Amendment" =
      normalize_question "what is the 22nd amendment" := by decide
  exact ⟨h1, h2, fun md5hex =>
    ⟨by unfold answer_cache_key; rw [h1], by unfold answer_cache_key; rw [h2]⟩⟩

/-- C2: the answer-cache key depends only on the normalized question and not
on the document id: when two questions normalize alike, both cache functions
address the same key, so after the first request's answer is cached for its
document, a second request with the same normalized question gets the
cached entry of the first request's document, and the cache-hit response of
the ask endpoint does not depend on the second request's document_id. -/
theorem cache_key_ignores_document_id (md5hex : String → String)
    (store : Store) (q1 q2 : String) (ans : String) (cits : List Citation)
    (d1 : ℕ) (h : normalize_question q1 = normalize_question q2) :
    answer_cache_key md5hex q1 = answer_cache_key md5hex q2 ∧
    get_cached_answer md5hex (cache_answer md5hex store q1 ans cits d1) q2 =
      some ⟨ans, cits, d1⟩ ∧
    (∀ d2 d2' : ℕ,
      ask_question_cache_path md5hex (cache_answer md5hex store q1 ans cits d1)
          ⟨q2, d2⟩ =
        ask_question_cache_path md5hex (cache_answer md5hex store q1 ans cits d1)
          ⟨q2, d2'⟩) ∧
    ∀ d2 : ℕ,
      ask_question_cache_path md5hex (cache_answer md5hex store q1 ans cits d1)
          ⟨q2, d2⟩ =
        some ⟨q2, ans, cits, cits.length, "success"⟩ := by
  have hkey : answer_cache_key md5hex q1 = answer_cache_key md5hex q2 := by
    unfold answer_cache_key
    rw [h]
  have hget : get_cached_answer md5hex (cache_answer md5hex store q1 ans cits d1) q2 =
      some ⟨ans, cits, d1⟩ := by
    unfold get_cached_answer cache_answer
    rw [← hkey, if_pos rfl]
  refine ⟨hkey, hget, fun d2 d2' => rfl, fun d2 => ?_⟩
  unfold ask_question_cache_path
  rw [hget]

/-- C2 witness: a concrete store, two punctuation variants of one question,
and two different document ids. -/
theorem cache_key_ignores_document_id_witness :
    get_cached_answer md5Ex
        (cache_answer md5Ex storeEmptyEx "What is the 22nd Amendment?" "answer text" [] 5)
        "what is the 22nd amendment" = some ⟨"answer text", [], 5⟩ ∧
    ask_question_cache_path md5Ex
        (cache_answer md5Ex storeEmptyEx "What is the 22nd Amendment?" "answer text" [] 5)
        ⟨"what is the 22nd amendment", 99⟩ =
      some ⟨"what is the 22nd amendment", "answer text", [], 0, "success"⟩ :=
  ⟨(cache_key_ignores_document_id md5Ex storeEmptyEx
      "What is the 22nd Amendment?" "what is the 22nd amendment"
      "answer text" [] 5 (by decide)).2.1,
   (cache_key_ignores_document_id md5Ex storeEmptyEx
      "What is the 22nd Amendment?" "what is the 22nd amendment"
      "answer text" [] 5 (by decide)).2.2.2 99⟩

/-- C3: whenever sub-question planning returns its failure marker (a dict
carrying the error key), enhanced_search returns exactly the plain
single-query retrieval over the original question: the retriever applied to
the embedding of the original question with top_k 8 and the same document
id. -/
theorem enhanced_search_planner_failure_fallback (planner : PlannerFn)
    (provider : List String → Option (List Vec)) (search : SearchFn)
    (question : String) (document_id : ℕ)
    (h : (planner question).error.isSome) :
    enhanced_search planner provider search question document_id =
      search (generate_embeddings provider [question]).headI 8 document_id := by
  unfold enhanced_search
  rw [if_pos h]

/-- C3 witness: a failed planner, a provider outage, and an empty index; the
fallback equals the plain search result. -/
theorem enhanced_search_planner_failure_fallback_witness :
    enhanced_search plannerFailEx providerDownEx searchEmptyEx
        "Who appoints ambassadors?" 7 =
      searchEmptyEx
        (generate_embeddings providerDownEx ["Who appoints ambassadors?"]).headI
        8 7 :=
  enhanced_search_planner_failure_fallback plannerFailEx providerDownEx
    searchEmptyEx "Who appoints ambassadors?" 7 (by decide)

/-- C8: under the provider contract (one embedding per input on success),
generate_embeddings returns one vector per input text in order; when the
provider call fails it returns, instead of propagating the error, one
all-zero vector of dimension 1536 per input; and generate_single_embedding
is the first element of generate_embeddings on the singleton list (which is
never empty, so the Python index 0 is defined). -/
theorem generate_embeddings_contract
    (provider : List String → Option (List Vec)) (texts : List String)
    (text : String)
    (hc : ∀ ts res, provider ts = some res → res.length = ts.length) :
    (generate_embeddings provider texts).length = texts.length ∧
    (provider texts = none →
      generate_embeddings provider texts =
        List.replicate texts.length (List.replicate 1536 (0 : ℚ))) ∧
    (generate_embeddings provider [text]).head? =
      some (generate_single_embedding provider text) := by
  refine ⟨?_, ?_, ?_⟩
  · cases hp : provider texts with
    | some res =>
        unfold generate_embeddings
        rw [hp]
        exact hc texts res hp
    | none =>
        unfold generate_embeddings
        rw [hp]
        exact List.length_replicate _ _
  · intro hp
    unfold generate_embeddings
    rw [hp]
  · unfold generate_single_embedding
    cases hp : provider [text] with
    | some res =>
        have hl : res.length = 1 := hc [text] res hp
        match res, hl with
        | [v], _ =>
            unfold generate_embeddings
            rw [hp]
            rfl
    | none =>
        unfold generate_embeddings
        rw [hp]
        rfl

/-- C8 witness: a provider honouring the contract and a failing provider are
both evaluated on concrete inputs. -/
theorem generate_embeddings_contract_witness :
    (generate_embeddings providerOkEx ["a", "b"]).length = 2 ∧
    generate_embeddings providerDownEx ["a", "b"] =
      List.replicate 2 (List.replicate 1536 (0 : ℚ)) := by
  refine ⟨(generate_embeddings_contract providerOkEx ["a", "b"] "c" ?_).1,
    (generate_embeddings_contract providerDownEx ["a", "b"] "c" ?_).2.1 rfl⟩
  · intro ts res h
    have h2 : (ts.map fun _ => ([1] : List ℚ)) = res := Option.some.inj h
    rw [← h2]
    exact List.length_map _ _
  · intro ts res h
    exact Option.noConfusion h

/-- C1: evaluation of the ingestion task at a run where the document exists,
chunking and chunk persistence succeed, and only the vector-index write
fails.  The Qdrant error is swallowed by the inner try/except and the task
still marks the document ready with a completed job record, leaving the
chunks persisted and no vectors stored — the status does silently advance to
ready, contradicting the stated property. -/
theorem process_document_qdrant_failure_marks_ready (chunks : List ChunkData) :
    process_document
        { docFound := true, chunks := chunks, qdrantOk := false, stepsOk := true } =
      { finalStatus := some "ready", jobRecord := some ("ready", 100)
        chunksPersisted := chunks.length, vectorsStored := 0 } := rfl

/-- Helper for C5: while the stored counter is live (all call times before
the expiry) and at least the number of calls, every call is allowed and
decrements the counter by exactly one, leaving the expiry unchanged. -/
theorem rateRun_decrements (limit ttl e : ℕ) :
    ∀ (ts : List ℕ) (c : ℕ), (∀ t ∈ ts, t < e) → ts.length ≤ c →
      rateRun limit ttl ts (some (c, e)) =
        (List.replicate ts.length true, some (c - ts.length, e)) := by
  intro ts
  induction ts with
  | nil => intro c _ _; rfl
  | cons t ts ih =>
      intro c hall hlen
      have ht : t < e := hall t (List.mem_cons_self t ts)
      have hc : 0 < c := lt_of_lt_of_le (Nat.succ_pos _) hlen
      have hlen2 : ts.length + 1 ≤ c := by simpa using hlen
      have hstep : rate_limit_script limit ttl t (some (c, e)) =
          ((c - 1, true), some (c - 1, e)) := by
        simp [rate_limit_script, ht, hc]
      have hrest : rateRun limit ttl ts (some (c - 1, e)) =
          (List.replicate ts.length true, some (c - 1 - ts.length, e)) :=
        ih (c - 1) (fun x hx => hall x (List.mem_cons_of_mem t hx))
          (by omega)
      have harith : c - 1 - ts.length = c - (t :: ts).length := by
        simp only [List.length_cons]
        omega
      show ((rate_limit_script limit ttl t (some (c, e))).1.2 ::
          (rateRun limit ttl ts (rate_limit_script limit ttl t (some (c, e))).2).1,
          (rateRun limit ttl ts (rate_limit_script limit ttl t (some (c, e))).2).2) = _
      rw [hstep]
      simp only [hrest, harith, List.length_cons, List.replicate_succ]

/-- Helper for C5: a run over concatenated call lists is the first run
followed by the second run from the first run's final state. -/
theorem rateRun_append (limit ttl : ℕ) (l1 l2 : List ℕ) (st : RateKeyState) :
    rateRun limit ttl (l1 ++ l2) st =
      ((rateRun limit ttl l1 st).1 ++
          (rateRun limit ttl l2 (rateRun limit ttl l1 st).2).1,
        (rateRun limit ttl l2 (rateRun limit ttl l1 st).2).2) := by
  induction l1 generalizing st with
  | nil => rfl
  | cons t l1 ih =>
      simp only [List.cons_append, rateRun, List.append_eq]
      rw [ih]

/-- C5: with limit 10 and a 300-second window, the first call from a client
seeds the counter to 9 and is allowed; each of the following 9 calls inside
the window is allowed, and after k of them the counter stands at 9 - k
(each call decrements it by one); the 11th call inside the window is denied;
and a call at or after the expiry is allowed again with the counter
re-seeded to 9.  The check-and-decrement is the single step
rate_limit_script, the one Lua EVAL of the source. -/
theorem rate_limit_boundary (t0 : ℕ) (ts : List ℕ) (t11 tafter : ℕ)
    (h9 : ts.length = 9) (hin : ∀ t ∈ ts, t < t0 + 300)
    (h11 : t11 < t0 + 300) (hafter : t0 + 300 ≤ tafter) :
    rate_limit_script 10 300 t0 none = ((9, true), some (9, t0 + 300)) ∧
    (∀ k : ℕ, k ≤ 9 →
      rateRun 10 300 (ts.take k) (some (9, t0 + 300)) =
        (List.replicate k true, some (9 - k, t0 + 300))) ∧
    rateRun 10 300 (t0 :: (ts ++ [t11, tafter])) none =
      (true :: (List.replicate 9 true ++ [false, true]),
        some (9, tafter + 300)) := by
  have hseed : rate_limit_script 10 300 t0 none = ((9, true), some (9, t0 + 300)) := rfl
  have hdeny : rate_limit_script 10 300 t11 (some (0, t0 + 300)) =
      ((0, false), some (0, t0 + 300)) := by
    simp [rate_limit_script, h11]
  have hreseed : rate_limit_script 10 300 tafter (some (0, t0 + 300)) =
      ((9, true), some (9, tafter + 300)) := by
    have : ¬ tafter < t0 + 300 := not_lt.mpr hafter
    simp [rate_limit_script, this]
  have hnine : rateRun 10 300 ts (some (9, t0 + 300)) =
      (List.replicate 9 true, some (0, t0 + 300)) := by
    have := rateRun_decrements 10 300 (t0 + 300) ts 9 hin (le_of_eq h9)
    rw [h9] at this
    exact this
  refine ⟨hseed, ?_, ?_⟩
  · intro k hk
    have hsub : ∀ t ∈ ts.take k, t < t0 + 300 :=
      fun t ht => hin t (List.take_subset k ts ht)
    have hlen : (ts.take k).length = k := by
      rw [List.length_take, h9]
      omega
    have := rateRun_decrements 10 300 (t0 + 300) (ts.take k) 9 hsub
      (by rw [hlen]; exact hk)
    rw [hlen] at this
    exact this
  · have hpair : rateRun 10 300 [t11, tafter] (some (0, t0 + 300)) =
        ([false, true], some (9, tafter + 300)) := by
      show ((rate_limit_script 10 300 t11 (some (0, t0 + 300))).1.2 ::
          (rateRun 10 300 [tafter] (rate_limit_script 10 300 t11 (some (0, t0 + 300))).2).1,
          (rateRun 10 300 [tafter] (rate_limit_script 10 300 t11 (some (0, t0 + 300))).2).2) = _
      rw [hdeny]
      show (false :: ((rate_limit_script 10 300 tafter (some (0, t0 + 300))).1.2 ::
          (rateRun 10 300 ([] : List ℕ) (rate_limit_script 10 300 tafter (some (0, t0 + 300))).2).1),
          (rateRun 10 300 ([] : List ℕ) (rate_limit_script 10 300 tafter (some (0, t0 + 300))).2).2) = _
      rw [hreseed]
      rfl
    show ((rate_limit_script 10 300 t0 none).1.2 ::
        (rateRun 10 300 (ts ++ [t11, tafter]) (rate_limit_script 10 300 t0 none).2).1,
        (rateRun 10 300 (ts ++ [t11, tafter]) (rate_limit_script 10 300 t0 none).2).2) = _
    rw [hseed, rateRun_append 10 300 ts [t11, tafter] (some (9, t0 + 300)), hnine, hpair]

/-- C5 witness: eleven calls at seconds 0 through 10 and a final call at
second 300. -/
theorem rate_limit_boundary_witness :
    rateRun 10 300 (0 :: ([1, 2, 3, 4, 5, 6, 7, 8, 9] ++ [10, 300])) none =
      (true :: (List.replicate 9 true ++ [false, true]), some (9, 300 + 300)) :=
  (rate_limit_boundary 0 [1, 2, 3, 4, 5, 6, 7, 8, 9] 10 300 (by decide)
    (by decide) (by decide) (by decide)).2.2

/-- Helper for C4: the quote-assignment loop never changes how many
citations there are. -/
theorem setExactTexts_length :
    ∀ (cs : List Citation) (qs : List String),
      (setExactTexts cs qs).length = cs.length := by
  intro cs
  induction cs with
  | nil => intro qs; cases qs <;> rfl
  | cons c cs ih =>
      intro qs
      cases qs with
      | nil => rfl
      | cons q qs => simp [setExactTexts, ih]

/-- Helper for C4: below the quote count, the assigned exact quote is the
quote at the same position. -/
theorem setExactTexts_exact_lt :
    ∀ (cs : List Citation) (qs : List String) (i : ℕ), i < qs.length →
      i < cs.length →
      ((setExactTexts cs qs)[i]?).map Citation.exact_text = qs[i]? := by
  intro cs
  induction cs with
  | nil => intro qs i _ hc; exact absurd hc (by simp)
  | cons c cs ih =>
      intro qs i hq hc
      cases qs with
      | nil => exact absurd hq (by simp)
      | cons q qs =>
          cases i with
          | zero => simp [setExactTexts]
          | succ j =>
              simp only [setExactTexts, List.getElem?_cons_succ]
              exact ih qs j (by simpa using hq) (by simpa using hc)

/-- Helper for C4: at and beyond the quote count, citations are returned
unchanged. -/
theorem setExactTexts_stable_ge :
    ∀ (cs : List Citation) (qs : List String) (i : ℕ), qs.length ≤ i →
      (setExactTexts cs qs)[i]? = cs[i]? := by
  intro cs
  induction cs with
  | nil => intro qs i _; cases qs <;> rfl
  | cons c cs ih =>
      intro qs i hq
      cases qs with
      | nil => rfl
      | cons q qs =>
          cases i with
          | zero => exact absurd hq (by simp)
          | succ j =>
              simp only [setExactTexts, List.getElem?_cons_succ]
              exact ih qs j (by simpa using hq)

/-- Helper for C4: the quote-assignment loop touches only the exact_text
field, so the chunk id of every citation is preserved. -/
theorem setExactTexts_chunk_id :
    ∀ (cs : List Citation) (qs : List String) (i : ℕ),
      ((setExactTexts cs qs)[i]?).map Citation.chunk_id =
        (cs[i]?).map Citation.chunk_id := by
  intro cs
  induction cs with
  | nil => intro qs i; cases qs <;> rfl
  | cons c cs ih =>
      intro qs i
      cases qs with
      | nil => rfl
      | cons q qs =>
          cases i with
          | zero => simp [setExactTexts]
          | succ j =>
              simp only [setExactTexts, List.getElem?_cons_succ]
              exact ih qs j

/-- C4: on a successful provider call whose response parses into m quote
lines, generate_answer_with_citations returns exactly one citation per
candidate chunk, in candidate order (chunk ids preserved positionally); for
every position below both m and the candidate count the citation's
exact_text is the quote at the same position; every citation at a position
at or beyond m keeps its empty exact_text; and the function is total, so no
error is raised on a count mismatch. -/
theorem citations_positional_binding (md5hex : String → String)
    (store : Store) (response_text question : String) (chunks : List RChunk)
    (document_id : ℕ) :
    (generate_answer_with_citations md5hex store (Except.ok response_text)
        question chunks document_id).1.1 =
      (parse_llm_response (pyStrip response_text)).1 ∧
    (generate_answer_with_citations md5hex store (Except.ok response_text)
        question chunks document_id).1.2.length = chunks.length ∧
    (∀ i : ℕ, i < (parse_llm_response (pyStrip response_text)).2.length →
      i < chunks.length →
      (((generate_answer_with_citations md5hex store (Except.ok response_text)
            question chunks document_id).1.2)[i]?).map Citation.exact_text =
        (parse_llm_response (pyStrip response_text)).2[i]?) ∧
    (∀ i : ℕ, (parse_llm_response (pyStrip response_text)).2.length ≤ i →
      i < chunks.length →
      (((generate_answer_with_citations md5hex store (Except.ok response_text)
            question chunks document_id).1.2)[i]?).map Citation.exact_text =
        some "") ∧
    ∀ i : ℕ,
      (((generate_answer_with_citations md5hex store (Except.ok response_text)
            question chunks document_id).1.2)[i]?).map Citation.chunk_id =
        (chunks[i]?).map RChunk.chunk_id := by
  have hres : (generate_answer_with_citations md5hex store
      (Except.ok response_text) question chunks document_id).1.2 =
      setExactTexts (chunks.map mkBaseCitation)
        (parse_llm_response (pyStrip response_text)).2 := rfl
  refine ⟨rfl, ?_, ?_, ?_, ?_⟩
  · rw [hres, setExactTexts_length, List.length_map]
  · intro i hq hc
    rw [hres]
    exact setExactTexts_exact_lt _ _ i hq (by simpa using hc)
  · intro i hq hc
    rw [hres, setExactTexts_stable_ge _ _ i hq, List.getElem?_map]
    rw [List.getElem?_eq_getElem hc]
    rfl
  · intro i
    rw [hres, setExactTexts_chunk_id, List.getElem?_map, Option.map_map]
    rfl

set_option maxRecDepth 100000 in
/-- C4 witness: three ranked candidates and a response with exactly two
quote lines give three citations, the first two carrying the parsed quotes
and the third an empty exact quote. -/
theorem citations_positional_binding_witness :
    (generate_answer_with_citations md5Ex storeEmptyEx (Except.ok respEx)
        "Who appoints ambassadors?" chunksEx 1).1.2.length = 3 ∧
    (((generate_answer_with_citations md5Ex storeEmptyEx (Except.ok respEx)
        "Who appoints ambassadors?" chunksEx 1).1.2)[0]?).map Citation.exact_text =
      some "The President shall appoint Ambassadors" ∧
    (((generate_answer_with_citations md5Ex storeEmptyEx (Except.ok respEx)
        "Who appoints ambassadors?" chunksEx 1).1.2)[1]?).map Citation.exact_text =
      some "by and with the Advice and Consent of the Senate" ∧
    (((generate_answer_with_citations md5Ex storeEmptyEx (Except.ok respEx)
        "Who appoints ambassadors?" chunksEx 1).1.2)[2]?).map Citation.exact_text =
      some "" := by
  have h := citations_positional_binding md5Ex storeEmptyEx respEx
    "Who appoints ambassadors?" chunksEx 1
  exact ⟨h.2.1.trans (by decide),
    (h.2.2.1 0 (by decide) (by decide)).trans (by decide),
    (h.2.2.1 1 (by decide) (by decide)).trans (by decide),
    h.2.2.2.1 2 (by decide) (by decide)⟩

/-- Helper for C6: the dedup worker with a seen set equals the first-occurrence
filter applied after discarding already-seen ids. -/
theorem dedupAux_eq_keepFirst :
    ∀ (l : List RChunk) (seen : List ℕ),
      dedupAux seen l =
        keepFirstByChunkId (l.filter fun c => decide (c.chunk_id ∉ seen)) := by
  intro l
  induction l with
  | nil => intro seen; simp [dedupAux, keepFirstByChunkId]
  | cons c cs ih =>
      intro seen
      by_cases hc : c.chunk_id ∈ seen
      · simp only [dedupAux, if_pos hc]
        rw [ih seen]
        congr 1
        simp [List.filter_cons, hc]
      · simp only [dedupAux, if_neg hc]
        have hfil : (c :: cs).filter (fun d => decide (d.chunk_id ∉ seen)) =
            c :: cs.filter (fun d => decide (d.chunk_id ∉ seen)) := by
          simp [List.filter_cons, hc]
        rw [hfil, keepFirstByChunkId, ih (c.chunk_id :: seen)]
        congr 1
        apply congrArg keepFirstByChunkId
        rw [List.filter_filter]
        apply List.filter_congr
        intro d _
        by_cases h1 : d.chunk_id = c.chunk_id <;>
          by_cases h2 : d.chunk_id ∈ seen <;>
            simp [h1, h2, List.mem_cons]

/-- Helper for C6: deduplicate_chunks keeps exactly the first occurrence of
every chunk id, in input order. -/
theorem deduplicate_chunks_eq_keepFirst (l : List RChunk) :
    deduplicate_chunks l = keepFirstByChunkId l := by
  unfold deduplicate_chunks
  rw [dedupAux_eq_keepFirst]
  congr 1
  simp

/-- Helper for C6: inserting into the descending sort permutes nothing away. -/
theorem insertByScoreDesc_perm (c : RChunk) (l : List RChunk) :
    List.Perm (insertByScoreDesc c l) (c :: l) := by
  induction l with
  | nil => exact List.Perm.refl _
  | cons d ds ih =>
      unfold insertByScoreDesc
      by_cases h : c.similarity_score < d.similarity_score
      · rw [if_pos h]
        exact (ih.cons d).trans (List.Perm.swap c d ds)
      · rw [if_neg h]

/-- Helper for C6: the descending sort is a permutation of its input. -/
theorem sortByScoreDesc_perm (l : List RChunk) :
    List.Perm (sortByScoreDesc l) l := by
  induction l with
  | nil => exact List.Perm.refl _
  | cons c cs ih =>
      exact (insertByScoreDesc_perm c (sortByScoreDesc cs)).trans (ih.cons c)

/-- Helper for C6: inserting into a descending-sorted list keeps it sorted. -/
theorem insertByScoreDesc_pairwise (c : RChunk) (l : List RChunk)
    (h : l.Pairwise fun a b => b.similarity_score ≤ a.similarity_score) :
    (insertByScoreDesc c l).Pairwise
      fun a b => b.similarity_score ≤ a.similarity_score := by
  induction l with
  | nil => simp [insertByScoreDesc]
  | cons d ds ih =>
      rcases List.pairwise_cons.mp h with ⟨hd, hds⟩
      unfold insertByScoreDesc
      by_cases hlt : c.similarity_score < d.similarity_score
      · rw [if_pos hlt]
        refine List.pairwise_cons.mpr ⟨?_, ih hds⟩
        intro x hx
        rcases List.mem_cons.mp ((insertByScoreDesc_perm c ds).mem_iff.mp hx) with h1 | h2
        · subst h1; exact le_of_lt hlt
        · exact hd x h2
      · rw [if_neg hlt]
        refine List.pairwise_cons.mpr ⟨?_, h⟩
        intro x hx
        rcases List.mem_cons.mp hx with h1 | h2
        · subst h1; exact not_lt.mp hlt
        · exact le_trans (hd x h2) (not_lt.mp hlt)

/-- Helper for C6: the sort produces a list ordered by descending similarity
score. -/
theorem sortByScoreDesc_pairwise (l : List RChunk) :
    (sortByScoreDesc l).Pairwise
      fun a b => b.similarity_score ≤ a.similarity_score := by
  induction l with
  | nil => simp [sortByScoreDesc]
  | cons c cs ih => exact insertByScoreDesc_pairwise c _ ih

/-- C6: on the planner success path, the concatenated per-sub-question
candidate lists are deduplicated by chunk id keeping the first occurrence in
input order (proved equal to the first-occurrence filter, so the tie-break is
stable, not highest-score-wins); the deduplicated list is reordered (a
permutation) into descending similarity order; if fewer than 3 candidates
remain the result is the plain single-query retrieval over the original
question with top_k 8, and otherwise the first 8 of the sorted list, so at
most 8 are returned. -/
theorem aggregation_dedup_sort_truncate (planner : PlannerFn)
    (provider : List String → Option (List Vec)) (search : SearchFn)
    (question : String) (document_id : ℕ)
    (hok : (planner question).error = none) :
    deduplicate_chunks
        (((planner question).sub_questions.take 6).flatMap fun sub_q =>
          search (generate_embeddings provider [sub_q]).headI 3 document_id) =
      keepFirstByChunkId
        (((planner question).sub_questions.take 6).flatMap fun sub_q =>
          search (generate_embeddings provider [sub_q]).headI 3 document_id) ∧
    List.Perm
      (sortByScoreDesc (deduplicate_chunks
        (((planner question).sub_questions.take 6).flatMap fun sub_q =>
          search (generate_embeddings provider [sub_q]).headI 3 document_id)))
      (deduplicate_chunks
        (((planner question).sub_questions.take 6).flatMap fun sub_q =>
          search (generate_embeddings provider [sub_q]).headI 3 document_id)) ∧
    (sortByScoreDesc (deduplicate_chunks
        (((planner question).sub_questions.take 6).flatMap fun sub_q =>
          search (generate_embeddings provider [sub_q]).headI 3 document_id))).Pairwise
      (fun a b => b.similarity_score ≤ a.similarity_score) ∧
    enhanced_search planner provider search question document_id =
      (if (sortByScoreDesc (deduplicate_chunks
            (((planner question).sub_questions.take 6).flatMap fun sub_q =>
              search (generate_embeddings provider [sub_q]).headI 3 document_id))).length < 3
       then search (generate_embeddings provider [question]).headI 8 document_id
       else (sortByScoreDesc (deduplicate_chunks
            (((planner question).sub_questions.take 6).flatMap fun sub_q =>
              search (generate_embeddings provider [sub_q]).headI 3 document_id))).take 8) ∧
    (¬ (sortByScoreDesc (deduplicate_chunks
          (((planner question).sub_questions.take 6).flatMap fun sub_q =>
            search (generate_embeddings provider [sub_q]).headI 3 document_id))).length < 3 →
      (enhanced_search planner provider search question document_id).length ≤ 8) := by
  have hguard : ((planner question).error).isSome = false := by
    rw [hok]; rfl
  have hunfold : enhanced_search planner provider search question document_id =
      (if (sortByScoreDesc (deduplicate_chunks
            (((planner question).sub_questions.take 6).flatMap fun sub_q =>
              search (generate_embeddings provider [sub_q]).headI 3 document_id))).length < 3
       then search (generate_embeddings provider [question]).headI 8 document_id
       else (sortByScoreDesc (deduplicate_chunks
            (((planner question).sub_questions.take 6).flatMap fun sub_q =>
              search (generate_embeddings provider [sub_q]).headI 3 document_id))).take 8) := by
    simp only [enhanced_search, hok, Option.isSome_none, Bool.false_eq_true,
      if_false]
  refine ⟨deduplicate_chunks_eq_keepFirst _, sortByScoreDesc_perm _,
    sortByScoreDesc_pairwise _, hunfold, ?_⟩
  intro h3
  rw [hunfold, if_neg h3]
  exact List.length_take_le 8 _

/-- C6 witness: a successful two-sub-question plan over a concrete retriever;
the aggregation equality is instantiated and the result has at most 8
candidates. -/
theorem aggregation_dedup_sort_truncate_witness :
    enhanced_search plannerOkEx providerOkEx searchEx
        "Who appoints ambassadors?" 7 =
      (if (sortByScoreDesc (deduplicate_chunks
            (((plannerOkEx "Who appoints ambassadors?").sub_questions.take 6).flatMap
              fun sub_q =>
                searchEx (generate_embeddings providerOkEx [sub_q]).headI 3 7))).length < 3
       then searchEx
          (generate_embeddings providerOkEx ["Who appoints ambassadors?"]).headI 8 7
       else (sortByScoreDesc (deduplicate_chunks
            (((plannerOkEx "Who appoints ambassadors?").sub_questions.take 6).flatMap
              fun sub_q =>
                searchEx (generate_embeddings providerOkEx [sub_q]).headI 3 7))).take 8) ∧
    (enhanced_search plannerOkEx providerOkEx searchEx
        "Who appoints ambassadors?" 7).length ≤ 8 :=
  ⟨(aggregation_dedup_sort_truncate plannerOkEx providerOkEx searchEx
      "Who appoints ambassadors?" 7 rfl).2.2.2.1,
   (aggregation_dedup_sort_truncate plannerOkEx providerOkEx searchEx
      "Who appoints ambassadors?" 7 rfl).2.2.2.2 (by decide)⟩

/-- C9: when the sentence loop closes a chunk (the sentence is no page
marker and not blank, adding it would exceed the chunk size, and the buffer
has content), the closed chunk is appended and the next buffer is seeded
with the overlap suffix of the closed buffer, a space, and the new sentence
(just the sentence if the overlap text is empty); the overlap suffix is the
whole closed text when it has at most overlap_tokens tokens, and otherwise
the decoding of its trailing overlap_tokens tokens. -/
theorem chunk_overlap_seeding (enc : Encoding) (chunk_size overlap : ℕ)
    (st : ChunkState) (sentence : String)
    (hmark : pageMarkerOf sentence = none)
    (hne : pyStrip sentence ≠ "")
    (hover : chunk_size < st.current_tokens + (enc.encode sentence).length)
    (hbuf : pyStrip st.current_chunk ≠ "") :
    (chunkStep enc chunk_size overlap st sentence).chunks =
      st.chunks ++ [closeChunk st] ∧
    (chunkStep enc chunk_size overlap st sentence).current_chunk =
      (if get_overlap_text st.current_chunk overlap enc ≠ "" then
        get_overlap_text st.current_chunk overlap enc ++ " " ++ sentence
       else sentence) ∧
    ((enc.encode st.current_chunk).length ≤ overlap →
      get_overlap_text st.current_chunk overlap enc = st.current_chunk) ∧
    (0 < overlap → overlap < (enc.encode st.current_chunk).length →
      get_overlap_text st.current_chunk overlap enc =
        enc.decode ((enc.encode st.current_chunk).drop
          ((enc.encode st.current_chunk).length - overlap))) := by
  have hstep : chunkStep enc chunk_size overlap st sentence =
      { chunks := st.chunks ++ [closeChunk st]
        current_chunk :=
          if get_overlap_text st.current_chunk overlap enc ≠ "" then
            get_overlap_text st.current_chunk overlap enc ++ " " ++ sentence
          else sentence
        current_tokens :=
          (enc.encode (if get_overlap_text st.current_chunk overlap enc ≠ "" then
            get_overlap_text st.current_chunk overlap enc ++ " " ++ sentence
          else sentence)).length
        chunk_id := st.chunk_id + 1
        current_page := st.current_page
        pages_in_chunk := [st.current_page] } := by
    simp only [chunkStep, hmark]
    rw [if_neg hne, if_pos (And.intro hover hbuf)]
  refine ⟨by rw [hstep], by rw [hstep], ?_, ?_⟩
  · intro h
    unfold get_overlap_text
    rw [if_pos h]
  · intro h0 hlt
    unfold get_overlap_text
    rw [if_neg (not_le.mpr hlt)]
    unfold lastSlice
    rw [if_neg (Nat.pos_iff_ne_zero.mp h0)]

/-- C9 witness: closing a 22-token buffer against a 30-token budget with a
10-token overlap seeds the next buffer with the decoded 10-token suffix, a
space, and the new sentence. -/
theorem chunk_overlap_seeding_witness :
    (chunkStep encCharEx 30 10 chunkStateEx "This is a test.").current_chunk =
      "my friend. This is a test." ∧
    (chunkStep encCharEx 30 10 chunkStateEx "This is a test.").chunks =
      [closeChunk chunkStateEx] := by
  have h := chunk_overlap_seeding encCharEx 30 10 chunkStateEx
    "This is a test." (by decide) (by decide) (by decide) (by decide)
  exact ⟨h.2.1.trans (by decide), h.1.trans (by decide)⟩

/-- Helper for C10: a left fold of min never exceeds its initial value. -/
theorem foldl_min_le_init (l : List ℕ) : ∀ a : ℕ, l.foldl min a ≤ a := by
  induction l with
  | nil => intro a; exact le_refl a
  | cons x xs ih => intro a; exact le_trans (ih (min a x)) (min_le_left a x)

/-- Helper for C10: a left fold of max is at least its initial value. -/
theorem init_le_foldl_max (l : List ℕ) : ∀ a : ℕ, a ≤ l.foldl max a := by
  induction l with
  | nil => intro a; exact le_refl a
  | cons x xs ih => intro a; exact le_trans (le_max_left a x) (ih (max a x))

/-- Helper for C10: a lower bound of the initial value and all elements
bounds the min fold. -/
theorem le_foldl_min (l : List ℕ) :
    ∀ a b : ℕ, b ≤ a → (∀ x ∈ l, b ≤ x) → b ≤ l.foldl min a := by
  induction l with
  | nil => intro a b h _; exact h
  | cons x xs ih =>
      intro a b ha hall
      exact ih (min a x) b (le_min ha (hall x (List.mem_cons_self x xs)))
        fun y hy => hall y (List.mem_cons_of_mem x hy)

/-- Helper for C10: the page minimum never exceeds the page maximum, so every
emitted chunk has page_start at most page_end. -/
theorem pageSetMin_le_pageSetMax (pages : List ℕ) (cur : ℕ) :
    pageSetMin pages cur ≤ pageSetMax pages cur := by
  cases pages with
  | nil => exact le_refl cur
  | cons p ps => exact le_trans (foldl_min_le_init ps p) (init_le_foldl_max ps p)

/-- Helper for C10: a common lower bound of the page set and the current page
bounds the page minimum. -/
theorem le_pageSetMin (pages : List ℕ) (cur b : ℕ) (h1 : b ≤ cur)
    (h2 : ∀ x ∈ pages, b ≤ x) : b ≤ pageSetMin pages cur := by
  cases pages with
  | nil => exact h1
  | cons p ps =>
      exact le_foldl_min ps p b (h2 p (List.mem_cons_self p ps))
        fun x hx => h2 x (List.mem_cons_of_mem p hx)

/-- Helper for C10: when every page of the set is at most the current page,
so is the page minimum. -/
theorem pageSetMin_le_cur (pages : List ℕ) (cur : ℕ)
    (h : ∀ x ∈ pages, x ≤ cur) : pageSetMin pages cur ≤ cur := by
  cases pages with
  | nil => exact le_refl cur
  | cons p ps =>
      exact le_trans (foldl_min_le_init ps p) (h p (List.mem_cons_self p ps))

/-- Helper for C10: membership after a set insert comes from the old set or
is the inserted page. -/
theorem mem_insertPage (pages : List ℕ) (p q : ℕ)
    (h : q ∈ insertPage pages p) : q ∈ pages ∨ q = p := by
  unfold insertPage at h
  split at h
  · exact Or.inl h
  · rcases List.mem_append.mp h with h1 | h2
    · exact Or.inl h1
    · exact Or.inr (List.mem_singleton.mp h2)

/-- Helper for C10: the page start of a singleton appended chunk list. -/
theorem lastStart_concat (l : List ChunkData) (c : ChunkData) :
    (((l ++ [c]).map ChunkData.page_start).getLast?).getD 0 = c.page_start := by
  rw [List.map_append]
  simp

/-- Helper for C10: extending a non-decreasing chain by an element bounding
its last entry. -/
theorem chain'_concat_of_le (l : List ℕ) (a : ℕ)
    (h : List.Chain' (· ≤ ·) l) (ha : l.getLast?.getD 0 ≤ a) :
    List.Chain' (· ≤ ·) (l ++ [a]) := by
  refine List.Chain'.append h (List.chain'_singleton a) ?_
  intro x hx y hy
  have hxa : l.getLast? = some x := hx
  have hya : a = y := by simpa using hy
  rw [hxa] at ha
  rw [← hya]
  exact ha

/-- Helper for C10: one loop step preserves the page_start-at-most-page_end
property of the emitted chunks. -/
theorem chunkStep_pages_le (enc : Encoding) (chunk_size overlap : ℕ)
    (st : ChunkState) (s : String)
    (h : ∀ c ∈ st.chunks, c.page_start ≤ c.page_end) :
    ∀ c ∈ (chunkStep enc chunk_size overlap st s).chunks,
      c.page_start ≤ c.page_end := by
  intro c hc
  simp only [chunkStep] at hc
  split at hc
  · exact h c hc
  · split at hc
    · exact h c hc
    · split at hc
      · rcases List.mem_append.mp hc with h1 | h2
        · exact h c h1
        · rw [List.mem_singleton.mp h2]
          exact pageSetMin_le_pageSetMax _ _
      · exact h c hc

/-- Helper for C10: the whole sentence loop preserves the
page_start-at-most-page_end property. -/
theorem chunkLoop_pages_le (enc : Encoding) (chunk_size overlap : ℕ) :
    ∀ (sentences : List String) (st : ChunkState),
      (∀ c ∈ st.chunks, c.page_start ≤ c.page_end) →
      ∀ c ∈ (sentences.foldl (chunkStep enc chunk_size overlap) st).chunks,
        c.page_start ≤ c.page_end := by
  intro sentences
  induction sentences with
  | nil => intro st h; exact h
  | cons s ss ih =>
      intro st h
      exact ih _ (chunkStep_pages_le enc chunk_size overlap st s h)

/-- Helper for C10: a non-marker sentence never changes the current page. -/
theorem chunkStep_current_page (enc : Encoding) (chunk_size overlap : ℕ)
    (st : ChunkState) (s : String) (hpm : pageMarkerOf s = none) :
    (chunkStep enc chunk_size overlap st s).current_page = st.current_page := by
  simp only [chunkStep, hpm]
  split
  · rfl
  · split
    · rfl
    · rfl

/-- Helper for C10: one loop step preserves the monotonicity invariant,
provided any page marker met is at least the current page. -/
theorem chunkStep_mono (enc : Encoding) (chunk_size overlap : ℕ)
    (st : ChunkState) (s : String) (hinv : ChunkMonoInv st)
    (hm : ∀ p, pageMarkerOf s = some p → st.current_page ≤ p) :
    ChunkMonoInv (chunkStep enc chunk_size overlap st s) := by
  obtain ⟨h1, h2, h3⟩ := hinv
  cases hpm : pageMarkerOf s with
  | some p =>
      have hcp : st.current_page ≤ p := hm p hpm
      simp only [chunkStep, hpm]
      exact ⟨h1, le_trans h2 hcp,
        fun q hq => ⟨(h3 q hq).1, le_trans (h3 q hq).2 hcp⟩⟩
  | none =>
      simp only [chunkStep, hpm]
      by_cases hb : pyStrip s = ""
      · rw [if_pos hb]
        exact ⟨h1, h2, h3⟩
      · rw [if_neg hb]
        by_cases hcl : chunk_size < st.current_tokens + (enc.encode s).length ∧
            pyStrip st.current_chunk ≠ ""
        · rw [if_pos hcl]
          have hmin_le_cur :
              pageSetMin st.pages_in_chunk st.current_page ≤ st.current_page :=
            pageSetMin_le_cur _ _ fun x hx => (h3 x hx).2
          have hlast_le_min :
              lastStart st ≤ pageSetMin st.pages_in_chunk st.current_page :=
            le_pageSetMin _ _ _ h2 fun x hx => (h3 x hx).1
          refine ⟨?_, ?_, ?_⟩
          · show List.Chain' (· ≤ ·)
              ((st.chunks ++ [closeChunk st]).map ChunkData.page_start)
            rw [List.map_append]
            exact chain'_concat_of_le _ _ h1 hlast_le_min
          · show (((st.chunks ++ [closeChunk st]).map
                ChunkData.page_start).getLast?).getD 0 ≤ st.current_page
            rw [lastStart_concat]
            exact hmin_le_cur
          · intro q hq
            have hq' : q = st.current_page := List.mem_singleton.mp hq
            subst hq'
            constructor
            · show (((st.chunks ++ [closeChunk st]).map
                  ChunkData.page_start).getLast?).getD 0 ≤ st.current_page
              rw [lastStart_concat]
              exact hmin_le_cur
            · exact le_refl _
        · rw [if_neg hcl]
          refine ⟨h1, h2, ?_⟩
          intro q hq
          rcases mem_insertPage _ _ _ hq with hold | hnew
          · exact h3 q hold
          · subst hnew
            exact ⟨h2, le_refl _⟩

/-- Helper for C10: the sentence loop preserves the monotonicity invariant
whenever the remaining markers, prefixed by the current page, form a
non-decreasing chain. -/
theorem chunkLoop_mono (enc : Encoding) (chunk_size overlap : ℕ) :
    ∀ (sentences : List String) (st : ChunkState), ChunkMonoInv st →
      List.Chain' (· ≤ ·) (st.current_page :: markersOf sentences) →
      ChunkMonoInv (sentences.foldl (chunkStep enc chunk_size overlap) st) := by
  intro sentences
  induction sentences with
  | nil => intro st h _; exact h
  | cons s ss ih =>
      intro st hinv hchain
      cases hpm : pageMarkerOf s with
      | some p =>
          have hms : markersOf (s :: ss) = p :: markersOf ss := by
            simp [markersOf, hpm]
          rw [hms] at hchain
          have hcp : st.current_page ≤ p := (List.chain'_cons.mp hchain).1
          have hstep : ChunkMonoInv (chunkStep enc chunk_size overlap st s) :=
            chunkStep_mono enc chunk_size overlap st s hinv
              fun p' hp' => by
                rw [hpm] at hp'
                rw [← Option.some_inj.mp hp']
                exact hcp
          have hpage : (chunkStep enc chunk_size overlap st s).current_page = p := by
            simp only [chunkStep, hpm]
          refine ih _ hstep ?_
          rw [hpage]
          exact (List.chain'_cons.mp hchain).2
      | none =>
          have hms : markersOf (s :: ss) = markersOf ss := by
            simp [markersOf, hpm]
          rw [hms] at hchain
          have hstep : ChunkMonoInv (chunkStep enc chunk_size overlap st s) :=
            chunkStep_mono enc chunk_size overlap st s hinv
              fun p' hp' => absurd (hpm ▸ hp') (by simp)
          refine ih _ hstep ?_
          rw [chunkStep_current_page enc chunk_size overlap st s hpm]
          exact hchain

/-- C10 (amended): every chunk emitted by smart_chunk_document has
page_start at most page_end; and when the inline page markers are
non-decreasing and no smaller than the initial page 1, the page starts of
consecutive chunks are non-decreasing. -/
theorem chunk_page_invariants (enc : Encoding) (text : String)
    (chunk_size overlap : ℕ) :
    (∀ c ∈ smart_chunk_document enc text chunk_size overlap,
      c.page_start ≤ c.page_end) ∧
    (List.Chain' (· ≤ ·) (1 :: markersOf (splitSentences text)) →
      List.Chain' (· ≤ ·)
        ((smart_chunk_document enc text chunk_size overlap).map
          ChunkData.page_start)) := by
  have hrepr : smart_chunk_document enc text chunk_size overlap =
      (if pyStrip text = "" then []
       else if pyStrip ((splitSentences text).foldl
            (chunkStep enc chunk_size overlap) initChunkState).current_chunk ≠ "" then
         ((splitSentences text).foldl
            (chunkStep enc chunk_size overlap) initChunkState).chunks ++
           [closeChunk ((splitSentences text).foldl
              (chunkStep enc chunk_size overlap) initChunkState)]
       else ((splitSentences text).foldl
          (chunkStep enc chunk_size overlap) initChunkState).chunks) := rfl
  constructor
  · intro c hc
    rw [hrepr] at hc
    by_cases ht : pyStrip text = ""
    · rw [if_pos ht] at hc
      exact absurd hc (List.not_mem_nil c)
    · rw [if_neg ht] at hc
      have hall : ∀ c ∈ ((splitSentences text).foldl
          (chunkStep enc chunk_size overlap) initChunkState).chunks,
          c.page_start ≤ c.page_end :=
        chunkLoop_pages_le enc chunk_size overlap (splitSentences text)
          initChunkState fun c hc => absurd hc (List.not_mem_nil c)
      by_cases hb : pyStrip ((splitSentences text).foldl
          (chunkStep enc chunk_size overlap) initChunkState).current_chunk ≠ ""
      · rw [if_pos hb] at hc
        rcases List.mem_append.mp hc with h1 | h2
        · exact hall c h1
        · rw [List.mem_singleton.mp h2]
          exact pageSetMin_le_pageSetMax _ _
      · rw [if_neg hb] at hc
        exact hall c hc
  · intro hmono
    have hinv0 : ChunkMonoInv initChunkState := by
      refine ⟨List.chain'_nil, by decide, ?_⟩
      intro p hp
      exact absurd hp (List.not_mem_nil p)
    have hfinv : ChunkMonoInv ((splitSentences text).foldl
        (chunkStep enc chunk_size overlap) initChunkState) :=
      chunkLoop_mono enc chunk_size overlap (splitSentences text)
        initChunkState hinv0 hmono
    rw [hrepr]
    by_cases ht : pyStrip text = ""
    · rw [if_pos ht]
      exact List.chain'_nil
    · rw [if_neg ht]
      by_cases hb : pyStrip ((splitSentences text).foldl
          (chunkStep enc chunk_size overlap) initChunkState).current_chunk ≠ ""
      · rw [if_pos hb, List.map_append]
        exact chain'_concat_of_le _ _ hfinv.1
          (le_pageSetMin _ _ _ hfinv.2.1 fun x hx => (hfinv.2.2 x hx).1)
      · rw [if_neg hb]
        exact hfinv.1

set_option maxRecDepth 1000000 in
/-- C10 counterexample to the claim as stated: the input pageZeroTextEx has
the single inline marker for page 0, a non-decreasing marker sequence, yet
under the one-token-per-character codec the emitted page starts are 1 then 0,
a decreasing pair, because text before the first marker sits on the implicit
initial page 1.  Non-decreasing markers alone therefore do not give
non-decreasing chunk page ranges; the markers must also not go below the
initial page. -/
theorem chunk_page_monotonicity_counterexample :
    List.Chain' (· ≤ ·) (markersOf (splitSentences pageZeroTextEx)) ∧
    (smart_chunk_document encCharEx pageZeroTextEx).map ChunkData.page_start =
      [1, 0] ∧
    ¬ List.Chain' (· ≤ ·)
      ((smart_chunk_document encCharEx pageZeroTextEx).map
        ChunkData.page_start) := by
  have hm : markersOf (splitSentences pageZeroTextEx) = [0] := by decide
  have hps : (smart_chunk_document encCharEx pageZeroTextEx).map
      ChunkData.page_start = [1, 0] := by decide
  refine ⟨?_, hps, ?_⟩
  · rw [hm]
    exact List.chain'_singleton 0
  · rw [hps]
    intro h
    exact absurd (List.chain'_cons.mp h).1 (by decide)

set_option maxRecDepth 100000 in
/-- C10 witness: a two-page document with markers at or above the initial
page; the page starts come out non-decreasing and a concrete emitted chunk
has page_start at most page_end. -/
theorem chunk_page_invariants_witness :
    List.Chain' (· ≤ ·)
      (1 :: markersOf (splitSentences "Hello there. [PAGE:2] Bye. Again.")) ∧
    List.Chain' (· ≤ ·)
      ((smart_chunk_document encCharEx "Hello there. [PAGE:2] Bye. Again."
          10 3).map ChunkData.page_start) ∧
    (⟨0, "Hello there.", 12, 1, 1⟩ : ChunkData).page_start ≤
      (⟨0, "Hello there.", 12, 1, 1⟩ : ChunkData).page_end := by
  have hm2 : markersOf (splitSentences "Hello there. [PAGE:2] Bye. Again.") =
      [2] := by decide
  have hch : List.Chain' (· ≤ ·)
      (1 :: markersOf (splitSentences "Hello there. [PAGE:2] Bye. Again.")) := by
    rw [hm2]
    exact List.chain'_cons.mpr ⟨by decide, List.chain'_singleton 2⟩
  exact ⟨hch,
    (chunk_page_invariants encCharEx "Hello there. [PAGE:2] Bye. Again."
      10 3).2 hch,
    (chunk_page_invariants encCharEx "Hello there. [PAGE:2] Bye. Again."
      10 3).1 ⟨0, "Hello there.", 12, 1, 1⟩ (by decide)⟩
